import Mathlib

/-!
Shallow embedding of the ENSIME Sublime client's response-handling core
(`ensimesublime/protocol.py` and `ensimesublime/symbol_format.py`).

Python strings are modelled as Lean `String`; the handful of Python string
primitives the code uses (`startswith`, `replace`, slicing `[:-1]`, `in`)
are given explicit executable models on the character list underneath.
Python dicts keyed by call ids / procedure ids are modelled as association
lists, with `d.get(k)` returning `Option` and `d[k]` a fallible lookup.
Exceptions are modelled with `Except`.
-/

namespace EnsimeSublime

/-- Python exception kinds that the modelled code can raise. -/
inductive PyError where
  | keyError
  | indexError
  | unboundLocal
deriving DecidableEq, Repr

/-! ## Python string primitives -/

/-- Python `s.startswith(pre)`: `pre` is a prefix of `s`. -/
def pyStartsWith (s pre : String) : Bool :=
  pre.data.isPrefixOf s.data

/-- Python `sub in s`: `sub` occurs contiguously inside `s`. -/
def pyContains (s sub : String) : Bool :=
  decide (sub.data <:+: s.data)

/-- One pass of Python `str.replace`: replace every non-overlapping
occurrence of `pat` by `repl`, scanning left to right.  The `fuel`
argument (instantiated with the length of the scanned list) makes the
recursion structural; each step consumes at least one character. -/
def replaceFuel (pat repl : List Char) : Nat → List Char → List Char
  | _, [] => []
  | 0, s => s
  | fuel + 1, c :: rest =>
    if pat ≠ [] ∧ pat.isPrefixOf (c :: rest) then
      repl ++ replaceFuel pat repl fuel (rest.drop (pat.length - 1))
    else
      c :: replaceFuel pat repl fuel rest

/-- Python `s.replace(pat, repl)`. -/
def pyReplace (s pat repl : String) : String :=
  ⟨replaceFuel pat.data repl.data s.data.length s.data⟩

/-- Python slicing `s[:-1]`: drop the final character (empty stays empty). -/
def pyDropLast (s : String) : String :=
  ⟨s.data.dropLast⟩

/-! ## Data model for `symbol_format.py`

The payloads are JSON-like dicts; the formatting code accesses a fixed set
of keys, embedded here as structure fields.  `ParamType` holds a type dict
of which only the `name` key is read (`formatted_param_type`). -/

/-- A type dict as read by `formatted_param_type` / `formatted_type`:
only its `name` key is accessed. -/
structure ParamType where
  name : String
deriving DecidableEq, Repr

/-- A parameter section dict: `isImplicit` flag and the `params` list of
`(name, type)` pairs, order significant. -/
structure ParamSection where
  isImplicit : Bool
  params : List (String × ParamType)
deriving DecidableEq, Repr

/-- A `typeInfo` dict: discriminator `typehint`, own `name`, the
`resultType` dict (only its `name` is ever read) and `paramSections`. -/
structure TypeInfo where
  typehint : String
  name : String
  fullName : String
  resultType : ParamType
  paramSections : List ParamSection
deriving DecidableEq, Repr

/-- A completion dict: `name` plus an optional `typeInfo` key (the server
bug defended against in `handle_completion_info_list` is its absence). -/
structure Completion where
  name : String
  typeInfo : Option TypeInfo
deriving DecidableEq, Repr

/-! ## `symbol_format.py` functions -/

/-- `is_basic_type`: the dict's `typehint` equals `"BasicTypeInfo"`. -/
def is_basic_type (ti : TypeInfo) : Bool :=
  ti.typehint == "BasicTypeInfo"

/-- `formatted_param_type`: short name for a type, with special treatment
for the by-name and vararg wrapper encodings. -/
def formatted_param_type (ptype : ParamType) : String :=
  let pt_name := ptype.name
  if pyStartsWith pt_name "<byname>" then
    pyDropLast (pyReplace pt_name "<byname>[" "=> ")
  else if pyStartsWith pt_name "<repeated>" then
    pyDropLast (pyReplace pt_name "<repeated>[" "") ++ "*"
  else
    pt_name

/-- `concat_params`: renders `name: type` pairs joined by `", "`. -/
def concat_params (params : List (String × String)) : String :=
  String.intercalate ", " (params.map (fun p => String.intercalate ": " [p.1, p.2]))

/-- `formatted_param_section`: one parenthesized parameter list, with an
`implicit ` marker when the section is implicit. -/
def formatted_param_section (ps : ParamSection) : String :=
  let implicitStr := if ps.isImplicit then "implicit " else ""
  let s_params := ps.params.map (fun p => (p.1, formatted_param_type p.2))
  "(" ++ implicitStr ++ concat_params s_params ++ ")"

/-- `formatted_message_params`: all parameter sections concatenated. -/
def formatted_message_params (ti : TypeInfo) : String :=
  String.join (ti.paramSections.map formatted_param_section)

/-- `formatted_type`: result type name for methods, member type otherwise. -/
def formatted_type (ti : TypeInfo) : String :=
  if is_basic_type ti then ti.name else ti.resultType.name

/-- `type_to_show`: full name for basic types, `params => result` otherwise. -/
def type_to_show (ti : TypeInfo) : String :=
  if is_basic_type ti then ti.fullName
  else formatted_message_params ti ++ " => " ++ formatted_type ti

/-- One placeholder token of the insertion snippet:
Python `"${{{index}:{name}:{type}}}".format(...)`. -/
def paramSnippet (i : Nat) (name tpe : String) : String :=
  "$\x7b" ++ toString i ++ ":" ++ name ++ ":" ++ tpe ++ "\x7d"

/-- The inner loop of `formatted_insertion_params`: formats the snippets of
one section's parameters, threading the placeholder counter `i`. -/
def insertionParamLoop (params : List (String × ParamType)) (i : Nat) :
    List String × Nat :=
  match params with
  | [] => ([], i)
  | p :: rest =>
    let snip := paramSnippet i p.1 (formatted_param_type p.2)
    let (snips, i2) := insertionParamLoop rest (i + 1)
    (snip :: snips, i2)

/-- The outer loop of `formatted_insertion_params`: one parenthesized group
per section, threading the counter `i` across sections (never reset). -/
def insertionSectionLoop (sections : List ParamSection) (i : Nat) :
    List String × Nat :=
  match sections with
  | [] => ([], i)
  | s :: rest =>
    let (psnips, i2) := insertionParamLoop s.params i
    let (restSnips, i3) := insertionSectionLoop rest i2
    (("(" ++ String.intercalate ", " psnips ++ ")") :: restSnips, i3)

/-- `formatted_insertion_params`: the insertion snippet for all parameter
sections, with the counter starting at 1. -/
def formatted_insertion_params (ti : TypeInfo) : String :=
  String.join (insertionSectionLoop ti.paramSections 1).1

/-- `formatted_completion_sig`: regenerated signature for methods, bare name
otherwise.  The Python accesses `completion["typeInfo"]`, which raises when
the key is absent; here the caller supplies the present `typeInfo`. -/
def formatted_completion_sig (name : String) (ti : TypeInfo)
    (forInsertion : Bool) : String :=
  if is_basic_type ti then name
  else if ti.paramSections.length == 0 then name
  else if !forInsertion then name ++ formatted_message_params ti
  else name ++ formatted_insertion_params ti

/-- Python slicing `s[:n]` on the precision of a format spec. -/
def pyTruncate (s : String) (n : Nat) : String :=
  ⟨s.data.take n⟩

/-- Python format alignment `^w`: center, putting the extra filler (if the
total padding is odd) on the right. -/
def pyCenter (s : String) (w : Nat) : String :=
  if s.data.length < w then
    let pad := w - s.data.length
    let left := pad / 2
    ⟨List.replicate left ' ' ++ s.data ++ List.replicate (pad - left) ' '⟩
  else s

/-- Python format alignment `>w`: right-align, padding with spaces. -/
def pyRightAlign (s : String) (w : Nat) : String :=
  if s.data.length < w then
    ⟨List.replicate (w - s.data.length) ' ' ++ s.data⟩
  else s

/-- The display row of a suggestion:
Python `"{}\t{:^32.30} {:>10}".format(word, abbr, menu)`. -/
def suggestRow (word abbr menu : String) : String :=
  word ++ "\t" ++ pyCenter (pyTruncate abbr 30) 32 ++ " " ++ pyRightAlign menu 10

/-- `completion_to_suggest`: builds the `(display row, insertion signature)`
pair.  Accessing `completion["typeInfo"]` raises (modelled `none`) when the
key is absent. -/
def completion_to_suggest (c : Completion) : Option (String × String) :=
  match c.typeInfo with
  | none => none
  | some ti =>
    let word := c.name
    let abbr := formatted_completion_sig c.name ti false
    let menu := formatted_type ti
    let sig := formatted_completion_sig c.name ti true
    some (suggestRow word abbr menu, sig)

/-! ## Python dict and list primitives for `protocol.py` -/

/-- Python `d.get(k)`: association-list lookup, `none` when absent. -/
def dictGet {κ α : Type} [DecidableEq κ] (m : List (κ × α)) (k : κ) : Option α :=
  match m with
  | [] => none
  | (k2, v) :: rest => if k2 = k then some v else dictGet rest k

/-- Python `del d[k]`: remove the entry for `k`. -/
def dictDel {κ α : Type} [DecidableEq κ] (m : List (κ × α)) (k : κ) :
    List (κ × α) :=
  match m with
  | [] => []
  | (k2, v) :: rest => if k2 = k then dictDel rest k else (k2, v) :: dictDel rest k

/-- Truthiness of a Python `d.get(key)` result used as a flag. -/
def truthy : Option Bool → Bool
  | some b => b
  | none => false

/-- Python string comparison on two character lists: lexicographic by
Unicode code point. -/
def pyLeChars : List Char → List Char → Bool
  | [], _ => true
  | _ :: _, [] => false
  | c :: cs, d :: ds =>
    if c.toNat = d.toNat then pyLeChars cs ds else decide (c.toNat < d.toNat)

/-- Python `s <= t` on strings. -/
def pyStringLe (a b : String) : Prop :=
  pyLeChars a.data b.data = true

instance : DecidableRel pyStringLe :=
  fun a b => inferInstanceAs (Decidable (pyLeChars a.data b.data = true))

/-- Python `set(...)` as deduplication (order irrelevant: the result is
sorted immediately afterwards). -/
def pyDedup : List String → List String
  | [] => []
  | x :: xs => if x ∈ xs then pyDedup xs else x :: pyDedup xs

/-- Python `list(sorted(set(xs)))` for strings. -/
def pySortedSet (xs : List String) : List String :=
  List.insertionSort pyStringLe (pyDedup xs)

/-! ## `protocol.py`: import suggestions -/

/-- One entry of the `symLists` payload lists: only `name` is read. -/
structure SymbolCandidate where
  name : String
deriving DecidableEq, Repr

/-- The observable outcome of `handle_import_suggestions`. -/
inductive ImportOutcome where
  /-- `error_message('No import suggestions found.')` and return. -/
  | emptyError
  /-- a quick panel is shown with these entries. -/
  | panel (imports : List String)
deriving DecidableEq, Repr

/-- The `imports` list built by the nested loops of
`handle_import_suggestions`: every suggestion name with `$` replaced by
`.`, appended in order. -/
def gather_imports (symLists : List (List SymbolCandidate)) : List String :=
  symLists.foldl
    (fun acc suggestions =>
      suggestions.foldl (fun acc2 s => acc2 ++ [pyReplace s.name "$" "."]) acc)
    []

/-- `handle_import_suggestions` up to showing the quick panel: gather,
dedupe and sort the imports; report an error when empty, else present. -/
def handle_import_suggestions (symLists : List (List SymbolCandidate)) :
    ImportOutcome :=
  let imports := pySortedSet (gather_imports symLists)
  if imports.isEmpty then ImportOutcome.emptyError else ImportOutcome.panel imports

/-! ## `protocol.py`: call options consumers -/

/-- The option bag stored in `self.call_options` for one call id; the code
reads the `file_name` and `browse` keys via `.get`, hence `Option`. -/
structure CallOptions where
  file_name : Option String
  browse : Option Bool
deriving DecidableEq, Repr

/-- The `do_refactor` callback inside `handle_import_suggestions` (a quick
panel selection callback).  `choice > -1` guards a real selection; it then
reads `self.call_options[call_id]` — a raising dict index — and
`imports[choice]`, and issues `AddImportRefactorDesc(file_name, import)`,
modelled as the returned pair.  `none` models the cancelled no-op. -/
def do_refactor (call_options : List (Nat × CallOptions)) (call_id : Nat)
    (imports : List String) (choice : Int) :
    Except PyError (Option (Option String × String)) :=
  if choice > -1 then
    match dictGet call_options call_id with
    | none => Except.error PyError.keyError
    | some opts =>
      match imports.get? choice.toNat with
      | none => Except.error PyError.indexError
      | some imp => Except.ok (some (opts.file_name, imp))
  else Except.ok none

/-- `handle_string_response`: builds the URL (text itself when it starts
with `http`, else the configured localhost template applied to the queried
port — template and port are collaborator inputs), then consults
`self.call_options.get(call_id)`.  Returns the URL opened in the browser
(if any) and the updated `call_options`. -/
def handle_string_response (call_options : List (Nat × CallOptions))
    (call_id : Nat) (text : String) (port : Nat)
    (localhost_fmt : Nat → String → String) :
    Option String × List (Nat × CallOptions) :=
  let url := if pyStartsWith text "http" then text else localhost_fmt port text
  match dictGet call_options call_id with
  | some options =>
    if truthy options.browse then (some url, dictDel call_options call_id)
    else (none, call_options)
  | none => (none, call_options)

/-! ## `protocol.py`: response dispatch -/

/-- An inbound message payload: its `typehint` discriminator plus the rest
of the payload, abstracted to an opaque body. -/
structure Payload where
  typehint : String
  body : Nat
deriving DecidableEq, Repr

/-- How one handler invocation terminates. -/
inductive HandlerOutcome where
  | ok
  | notImplemented
  | raised (e : String)
deriving DecidableEq, Repr

/-- The observable outcome of `handle_incoming_response`. -/
inductive DispatchResult where
  /-- the handler ran to completion. -/
  | handled
  /-- `NotImplementedError` was caught: the formatted message went to
  `logger.error` and `status_message`; dispatch returned normally. -/
  | featureNotSupported (msg : String)
  /-- no handler for the tag: `logger.warning`, nothing else. -/
  | unhandledLogged
  /-- an exception escaped the dispatch call. -/
  | raised (e : String)
deriving DecidableEq, Repr

/-- Modelled from the spec: `catch` lives in `util.py`, which is not under
`src/`.  Per the spec, the dispatcher must not propagate a "not
implemented" signal: it reports the formatted message and returns, while
all other failures from inside a handler propagate to the caller. -/
def catchNotImplemented (outcome : HandlerOutcome) (msg : String) :
    DispatchResult :=
  match outcome with
  | HandlerOutcome.ok => DispatchResult.handled
  | HandlerOutcome.notImplemented => DispatchResult.featureNotSupported msg
  | HandlerOutcome.raised e => DispatchResult.raised e

/-- Modelled from the spec: the `feedback["handler_not_implemented"]`
format string lives in `config.py`, which is not under `src/`.  Per the
spec it is a formatted "handler not implemented for tag X on server
version V" message; `handle_incoming_response` formats it with the
typehint and the current server version. -/
def handler_not_implemented_msg (typehint server_version : String) : String :=
  "handler not implemented for " ++ typehint ++ " on server version "
    ++ server_version

/-- `handle_incoming_response`: look up `self.handlers.get(typehint)`;
when found, run the handler under `catch(NotImplementedError, ...)`; when
not found, only `logger.warning` the unhandled payload. -/
def handle_incoming_response
    (handlers : List (String × (Nat → Payload → HandlerOutcome)))
    (server_version : String) (call_id : Nat) (payload : Payload) :
    DispatchResult :=
  match dictGet handlers payload.typehint with
  | some handler =>
    catchNotImplemented (handler call_id payload)
      (handler_not_implemented_msg payload.typehint server_version)
  | none => DispatchResult.unhandledLogged

/-- `handle_debug_vm_error`: unconditionally raises `NotImplementedError`. -/
def handle_debug_vm_error : Nat → Payload → HandlerOutcome :=
  fun _ _ => HandlerOutcome.notImplemented

/-! ## `protocol.py`: completion list handler -/

/-- The per-completion mapping step shared by both branches of
`handle_completion_info_list`: Python list comprehension over
`completion_to_suggest`, propagating a raised exception. -/
def mapSuggest : List Completion → Option (List (String × String))
  | [] => some []
  | c :: rest =>
    match completion_to_suggest c, mapSuggest rest with
    | some s, some ss => some (s :: ss)
    | _, _ => none

/-- `handle_completion_info_list`: filter out completions without a
`typeInfo` field (server-bug defense, issue #324), then convert each of
the rest into a suggestion. -/
def handle_completion_info_list (cs : List Completion) :
    Option (List (String × String)) :=
  mapSuggest (cs.filter (fun c => c.typeInfo.isSome))

/-! ## `protocol.py`: refactor application -/

/-- A parsed patch set; its `apply(strip, root)` verdict is an abstract
collaborator input (from `patch.py`, outside this core). -/
structure PatchSet where
  apply : Nat → String → Bool

/-- The refactor-diff payload fields read by `apply_refactor`. -/
structure RefactorPayload where
  refactorTypeTypehint : String
  diff : String
  procedureId : Nat

/-- The observable outcome of a completed `apply_refactor` call. -/
inductive RefactorResult where
  /-- `fromfile` yielded nothing usable: `logger.warning` and return;
  no apply attempted, no file touched, no status message. -/
  | parseFailedLogged (diff_file : String)
  /-- the patch applied: the target file is reloaded and a
  "Refactoring succeeded" status is shown. -/
  | succeeded (file : String) (diff_file : String)
  /-- `patch_set.apply` reported failure: error log plus a
  "Refactor failed" status naming the diff file; nothing reloaded. -/
  | applyFailed (diff_file : String)
deriving DecidableEq, Repr

/-- The supported refactoring tags, as listed in `apply_refactor`. -/
def supported_refactorings : List String :=
  ["AddImport", "OrganizeImports", "Rename", "InlineLocal"]

/-- `apply_refactor`.  Python local-variable semantics are modelled
explicitly: `diff_file` and `patch_set` are assigned only under the
supported-tag guard, so the unguarded `if not patch_set:` that follows
reads an unassigned local (an `UnboundLocalError`) whenever the tag is
unsupported.  `fromfile` (parse verdict, `patch.py`) and
`root_as_str_from_abspath` (`paths.py`) are collaborator inputs;
`refactorings` is the `procedureId → file` dict, indexed directly. -/
def apply_refactor (fromfile : String → Option PatchSet)
    (root_as_str_from_abspath : String → String)
    (refactorings : List (Nat × String)) (payload : RefactorPayload) :
    Except PyError RefactorResult :=
  let assigned : Option (String × Option PatchSet) :=
    if payload.refactorTypeTypehint ∈ supported_refactorings then
      some (payload.diff, fromfile payload.diff)
    else none
  match assigned with
  | none => Except.error PyError.unboundLocal
  | some (diff_file, none) => Except.ok (RefactorResult.parseFailedLogged diff_file)
  | some (diff_file, some patch_set) =>
    match dictGet refactorings payload.procedureId with
    | none => Except.error PyError.keyError
    | some file =>
      let root := root_as_str_from_abspath file
      if patch_set.apply 0 root then Except.ok (RefactorResult.succeeded file diff_file)
      else Except.ok (RefactorResult.applyFailed diff_file)

/-! ## Characterizations used by the insertion-snippet claims -/

/-- Total number of parameters across all sections. -/
def totalParams (sections : List ParamSection) : Nat :=
  (sections.map (fun s => s.params.length)).sum

/-- The per-section snippet groups with their placeholder indices made
explicit: the section starting at counter value `i` uses exactly the
indices `List.range' i n` for its `n` parameters, and the next section
continues at `i + n`. -/
def indexedGroups : List ParamSection → Nat → List String
  | [], _ => []
  | s :: rest, i =>
    ("(" ++ String.intercalate ", "
        ((s.params.zip (List.range' i s.params.length)).map
          (fun pj => paramSnippet pj.2 pj.1.1 (formatted_param_type pj.1.2))) ++ ")")
      :: indexedGroups rest (i + s.params.length)

/-- The placeholder indices of `indexedGroups`, read left to right across
all sections. -/
def snippetIndices : List ParamSection → Nat → List Nat
  | [], _ => []
  | s :: rest, i => List.range' i s.params.length ++ snippetIndices rest (i + s.params.length)

/-! # Theorems -/

/-! ## String-primitive lemmas -/

/-- If `pat` does not occur in `s`, replacing it changes nothing. -/
theorem replaceFuel_of_no_occurrence (pat repl : List Char) :
    ∀ (fuel : Nat) (s : List Char), ¬ pat <:+: s →
      replaceFuel pat repl fuel s = s := by
  intro fuel
  induction fuel with
  | zero =>
    intro s _
    cases s with
    | nil => rfl
    | cons c rest => rfl
  | succ n ih =>
    intro s hs
    cases s with
    | nil => rfl
    | cons c rest =>
      have hnotpre : ¬ (pat ≠ [] ∧ pat.isPrefixOf (c :: rest)) := by
        rintro ⟨-, hpre⟩
        exact hs (List.isPrefixOf_iff_prefix.mp hpre).isInfix
      have hrest : ¬ pat <:+: rest := fun h => hs (h.trans (List.infix_cons_iff.mpr (Or.inr (List.infix_refl rest))))
      simp only [replaceFuel, if_neg hnotpre]
      rw [ih rest hrest]

/-- If `pat` does not occur in `s`, `pyReplace` returns `s` unchanged. -/
theorem pyReplace_of_not_contains (s pat repl : String)
    (h : pyContains s pat = false) : pyReplace s pat repl = s := by
  have hni : ¬ pat.data <:+: s.data := by
    intro hinf
    have : pyContains s pat = true := by
      simpa [pyContains] using hinf
    simp [this] at h
  show (⟨replaceFuel pat.data repl.data s.data.length s.data⟩ : String) = s
  rw [replaceFuel_of_no_occurrence pat.data repl.data s.data.length s.data hni]

/-- The Python string order is total. -/
theorem pyLeChars_total : ∀ a b : List Char,
    pyLeChars a b = true ∨ pyLeChars b a = true := by
  intro a
  induction a with
  | nil => intro b; left; rfl
  | cons x xs ih =>
    intro b
    cases b with
    | nil => right; rfl
    | cons y ys =>
      simp only [pyLeChars]
      by_cases hxy : x.toNat = y.toNat
      · rw [if_pos hxy, if_pos hxy.symm]
        exact ih ys
      · rw [if_neg hxy, if_neg (Ne.symm hxy)]
        rcases Nat.lt_or_ge x.toNat y.toNat with h | h
        · left; exact decide_eq_true h
        · right; exact decide_eq_true (by omega)

/-- The Python string order is transitive. -/
theorem pyLeChars_trans : ∀ a b c : List Char,
    pyLeChars a b = true → pyLeChars b c = true → pyLeChars a c = true := by
  intro a
  induction a with
  | nil => intro b c _ _; rfl
  | cons x xs ih =>
    intro b c hab hbc
    cases b with
    | nil => simp [pyLeChars] at hab
    | cons y ys =>
      cases c with
      | nil => simp [pyLeChars] at hbc
      | cons z zs =>
        simp only [pyLeChars] at hab hbc ⊢
        by_cases hxy : x.toNat = y.toNat
        · by_cases hyz : y.toNat = z.toNat
          · rw [if_pos hxy] at hab
            rw [if_pos hyz] at hbc
            rw [if_pos (hxy.trans hyz)]
            exact ih ys zs hab hbc
          · rw [if_neg hyz] at hbc
            have hlt : y.toNat < z.toNat := of_decide_eq_true hbc
            have hxz : x.toNat ≠ z.toNat := by omega
            rw [if_neg hxz]
            exact decide_eq_true (by omega)
        · rw [if_neg hxy] at hab
          have hlt : x.toNat < y.toNat := of_decide_eq_true hab
          by_cases hyz : y.toNat = z.toNat
          · have hxz : x.toNat ≠ z.toNat := by omega
            rw [if_neg hxz]
            exact decide_eq_true (by omega)
          · rw [if_neg hyz] at hbc
            have hlt2 : y.toNat < z.toNat := of_decide_eq_true hbc
            have hxz : x.toNat ≠ z.toNat := by omega
            rw [if_neg hxz]
            exact decide_eq_true (by omega)

/-- `pyDedup` preserves membership. -/
theorem mem_pyDedup : ∀ (xs : List String) (x : String),
    x ∈ pyDedup xs ↔ x ∈ xs := by
  intro xs
  induction xs with
  | nil => intro x; simp [pyDedup]
  | cons y ys ih =>
    intro x
    simp only [pyDedup]
    by_cases hy : y ∈ ys
    · rw [if_pos hy]
      rw [ih x]
      constructor
      · intro h; exact List.mem_cons_of_mem y h
      · intro h
        rcases List.mem_cons.mp h with h | h
        · exact h ▸ hy
        · exact h
    · rw [if_neg hy]
      simp [ih x]

/-- `pyDedup` yields distinct entries. -/
theorem nodup_pyDedup : ∀ xs : List String, (pyDedup xs).Nodup := by
  intro xs
  induction xs with
  | nil => exact List.nodup_nil
  | cons y ys ih =>
    simp only [pyDedup]
    by_cases hy : y ∈ ys
    · rw [if_pos hy]; exact ih
    · rw [if_neg hy]
      exact List.Nodup.cons (fun h => hy ((mem_pyDedup ys y).mp h)) ih

/-- `pySortedSet` sorts, deduplicates and keeps exactly the input's
elements. -/
theorem pySortedSet_spec (xs : List String) :
    List.Sorted pyStringLe (pySortedSet xs) ∧ (pySortedSet xs).Nodup ∧
      ∀ x, x ∈ pySortedSet xs ↔ x ∈ xs := by
  haveI : IsTotal String pyStringLe :=
    ⟨fun a b => pyLeChars_total a.data b.data⟩
  haveI : IsTrans String pyStringLe :=
    ⟨fun a b c => pyLeChars_trans a.data b.data c.data⟩
  refine ⟨List.sorted_insertionSort pyStringLe (pyDedup xs), ?_, ?_⟩
  · exact (List.perm_insertionSort pyStringLe (pyDedup xs)).nodup_iff.mpr
      (nodup_pyDedup xs)
  · intro x
    rw [pySortedSet, List.mem_insertionSort, mem_pyDedup]

/-! ## C2: import suggestions -/

/-- C2 (counterexample): on the input
`[["scala.util.Random$", "scala.util.Random$", "java.util.List$"]]` the
presented list is NOT `["java.util.List", "scala.util.Random"]` — the `$`
replacement turns a trailing `$` into a trailing `.`, which the claimed
output drops. -/
theorem import_suggestions_example_counterexample :
    handle_import_suggestions
        [[⟨"scala.util.Random$"⟩, ⟨"scala.util.Random$"⟩, ⟨"java.util.List$"⟩]]
      ≠ ImportOutcome.panel ["java.util.List", "scala.util.Random"] := by
  decide

/-- C2 (amended): the presented import list is the flattened suggestion
names with every `$` replaced by `.`, deduplicated and sorted
lexicographically; the input names `["scala.util.Random$",
"scala.util.Random$", "java.util.List$"]` yield exactly the presented list
`["java.util.List.", "scala.util.Random."]` (each with its trailing
dot). -/
theorem import_suggestions_amended :
    (∀ symLists : List (List SymbolCandidate),
      List.Sorted pyStringLe (pySortedSet (gather_imports symLists)) ∧
      (pySortedSet (gather_imports symLists)).Nodup ∧
      (∀ x, x ∈ pySortedSet (gather_imports symLists) ↔
        x ∈ gather_imports symLists) ∧
      handle_import_suggestions symLists =
        (if (pySortedSet (gather_imports symLists)).isEmpty then
          ImportOutcome.emptyError
        else ImportOutcome.panel (pySortedSet (gather_imports symLists)))) ∧
    handle_import_suggestions
        [[⟨"scala.util.Random$"⟩, ⟨"scala.util.Random$"⟩, ⟨"java.util.List$"⟩]]
      = ImportOutcome.panel ["java.util.List.", "scala.util.Random."] := by
  constructor
  · intro symLists
    obtain ⟨h1, h2, h3⟩ := pySortedSet_spec (gather_imports symLists)
    exact ⟨h1, h2, h3, rfl⟩
  · decide

/-! ## C8 and C10: `formatted_param_type` -/

/-- `pyStartsWith` unfolded to list prefixing. -/
theorem pyStartsWith_eq_true {s pre : String} :
    pyStartsWith s pre = true ↔ pre.data <+: s.data := by
  simp [pyStartsWith]

/-- A name starting with `<repeated>` never starts with `<byname>`. -/
theorem not_byname_of_repeated {name : String}
    (h : pyStartsWith name "<repeated>" = true) :
    pyStartsWith name "<byname>" = false := by
  by_contra hb
  rw [Bool.not_eq_false] at hb
  have h1 := pyStartsWith_eq_true.mp h
  have h2 := pyStartsWith_eq_true.mp hb
  have h3 : ("<byname>".data : List Char) <+: "<repeated>".data :=
    List.prefix_of_prefix_length_le h2 h1 (by decide)
  exact absurd h3 (by decide)

/-- Dropping the final character of a nonempty string changes it. -/
theorem pyDropLast_ne {name : String} (h : name.data ≠ []) :
    pyDropLast name ≠ name := by
  intro he
  have hd : name.data.dropLast = name.data := congrArg String.data he
  have hlen := congrArg List.length hd
  rw [List.length_dropLast] at hlen
  have hpos : 0 < name.data.length := List.length_pos.mpr h
  omega

/-- C8: `formatted_param_type` maps the two wrapper encodings exactly:
`"<byname>[Int]"` yields `"=> Int"`, `"<repeated>[String]"` yields
`"String*"`, and any name starting with neither wrapper prefix is returned
unchanged. -/
theorem formatted_param_type_wrappers :
    formatted_param_type ⟨"<byname>[Int]"⟩ = "=> Int" ∧
    formatted_param_type ⟨"<repeated>[String]"⟩ = "String*" ∧
    ∀ name : String, pyStartsWith name "<byname>" = false →
      pyStartsWith name "<repeated>" = false →
      formatted_param_type ⟨name⟩ = name := by
  refine ⟨by decide, by decide, ?_⟩
  intro name h1 h2
  simp only [formatted_param_type]
  rw [if_neg (by simp [h1]), if_neg (by simp [h2])]

/-- C8 (witness): the general unchanged case at the concrete name
`"Int"`. -/
theorem formatted_param_type_wrappers_witness :
    pyStartsWith "Int" "<byname>" = false ∧
    pyStartsWith "Int" "<repeated>" = false ∧
    formatted_param_type ⟨"Int"⟩ = "Int" :=
  ⟨by decide, by decide,
    formatted_param_type_wrappers.2.2 "Int" (by decide) (by decide)⟩

/-- C10 (counterexample): `"<repeated>*"` starts with `<repeated>` and
lacks the bracketed form, yet `formatted_param_type` returns it unchanged
(the removed final `*` is re-appended), contradicting the claim's "does
not return the name unchanged". -/
theorem formatted_param_type_prefix_only_counterexample :
    pyStartsWith "<repeated>*" "<repeated>" = true ∧
    pyContains "<repeated>*" "<repeated>[" = false ∧
    formatted_param_type ⟨"<repeated>*"⟩ = "<repeated>*" := by
  refine ⟨by decide, by decide, by decide⟩

/-- C10 (amended): for a name starting with a wrapper prefix but lacking
the bracketed form, the byname case returns the name with its final
character removed (never the unchanged name), and the repeated case
returns the name with its final character removed and `*` appended — which
can coincide with the original name (e.g. when it already ends in `*`). -/
theorem formatted_param_type_prefix_only (name : String) :
    (pyStartsWith name "<byname>" = true →
      pyContains name "<byname>[" = false →
      formatted_param_type ⟨name⟩ = pyDropLast name ∧
        formatted_param_type ⟨name⟩ ≠ name) ∧
    (pyStartsWith name "<repeated>" = true →
      pyContains name "<repeated>[" = false →
      formatted_param_type ⟨name⟩ = pyDropLast name ++ "*") := by
  constructor
  · intro hs hc
    have heq : formatted_param_type ⟨name⟩ = pyDropLast name := by
      simp only [formatted_param_type]
      rw [if_pos hs, pyReplace_of_not_contains name "<byname>[" "=> " hc]
    refine ⟨heq, ?_⟩
    rw [heq]
    apply pyDropLast_ne
    intro hnil
    have h1 := pyStartsWith_eq_true.mp hs
    rw [hnil] at h1
    exact absurd (List.prefix_nil.mp h1) (by decide)
  · intro hs hc
    have hb := not_byname_of_repeated hs
    simp only [formatted_param_type]
    rw [if_neg (by simp [hb]), if_pos hs,
      pyReplace_of_not_contains name "<repeated>[" "" hc]

/-- C10 (witness): the two amended cases at the concrete names
`"<byname>X"` and `"<repeated>X"`. -/
theorem formatted_param_type_prefix_only_witness :
    (pyStartsWith "<byname>X" "<byname>" = true ∧
      pyContains "<byname>X" "<byname>[" = false ∧
      formatted_param_type ⟨"<byname>X"⟩ = pyDropLast "<byname>X" ∧
      formatted_param_type ⟨"<byname>X"⟩ ≠ "<byname>X") ∧
    (pyStartsWith "<repeated>X" "<repeated>" = true ∧
      pyContains "<repeated>X" "<repeated>[" = false ∧
      formatted_param_type ⟨"<repeated>X"⟩ = pyDropLast "<repeated>X" ++ "*") := by
  constructor
  · obtain ⟨h1, h2⟩ :=
      (formatted_param_type_prefix_only "<byname>X").1 (by decide) (by decide)
    exact ⟨by decide, by decide, h1, h2⟩
  · have h :=
      (formatted_param_type_prefix_only "<repeated>X").2 (by decide) (by decide)
    exact ⟨by decide, by decide, h⟩

/-! ## C6: insertion snippet placeholder indices -/

/-- The inner loop pairs the section's parameters with the consecutive
indices `List.range' i n` and leaves the counter at `i + n`. -/
theorem insertionParamLoop_eq :
    ∀ (params : List (String × ParamType)) (i : Nat),
      insertionParamLoop params i =
        ((params.zip (List.range' i params.length)).map
          (fun pj => paramSnippet pj.2 pj.1.1 (formatted_param_type pj.1.2)),
         i + params.length) := by
  intro params
  induction params with
  | nil => intro i; rfl
  | cons p rest ih =>
    intro i
    simp only [insertionParamLoop, ih (i + 1), List.length_cons,
      List.range'_succ, List.zip_cons_cons, List.map_cons]
    have harith : i + 1 + rest.length = i + (rest.length + 1) := by omega
    rw [harith]

/-- The outer loop produces exactly the groups of `indexedGroups` and
advances the counter by the total parameter count. -/
theorem insertionSectionLoop_eq :
    ∀ (sections : List ParamSection) (i : Nat),
      insertionSectionLoop sections i =
        (indexedGroups sections i, i + totalParams sections) := by
  intro sections
  induction sections with
  | nil =>
    intro i
    simp [insertionSectionLoop, indexedGroups, totalParams]
  | cons s rest ih =>
    intro i
    simp only [insertionSectionLoop, insertionParamLoop_eq s.params i,
      ih (i + s.params.length), indexedGroups, totalParams, List.map_cons,
      List.sum_cons]
    have harith : i + s.params.length + (List.map (fun s => s.params.length) rest).sum
        = i + (s.params.length + (List.map (fun s => s.params.length) rest).sum) := by
      omega
    rw [harith]

/-- `indexedGroups` yields one group per parameter section. -/
theorem indexedGroups_length :
    ∀ (sections : List ParamSection) (i : Nat),
      (indexedGroups sections i).length = sections.length := by
  intro sections
  induction sections with
  | nil => intro i; rfl
  | cons s rest ih =>
    intro i
    simp [indexedGroups, ih]

/-- The indices read left to right across all sections are the consecutive
run starting at the initial counter value. -/
theorem snippetIndices_eq_range' :
    ∀ (sections : List ParamSection) (i : Nat),
      snippetIndices sections i = List.range' i (totalParams sections) := by
  intro sections
  induction sections with
  | nil => intro i; simp [snippetIndices, totalParams]
  | cons s rest ih =>
    intro i
    simp only [snippetIndices, ih (i + s.params.length)]
    rw [List.range'_append_1]
    have hcons : totalParams (s :: rest) = s.params.length + totalParams rest := by
      simp [totalParams]
    rw [hcons, Nat.add_comm (totalParams rest) s.params.length]

/-- C6: for every arrow type the insertion snippet is the concatenation of
exactly one parenthesized group per parameter section, and the placeholder
indices, read left to right across all sections, are exactly
`1 .. totalParamCount` (the strictly increasing run `List.range' 1 _`),
with the counter spanning sections rather than resetting. -/
theorem insertion_snippet_spec (ti : TypeInfo) :
    formatted_insertion_params ti = String.join (indexedGroups ti.paramSections 1) ∧
    (indexedGroups ti.paramSections 1).length = ti.paramSections.length ∧
    snippetIndices ti.paramSections 1 = List.range' 1 (totalParams ti.paramSections) := by
  refine ⟨?_, indexedGroups_length ti.paramSections 1,
    snippetIndices_eq_range' ti.paramSections 1⟩
  rw [formatted_insertion_params, insertionSectionLoop_eq ti.paramSections 1]

/-! ## C7: completion filtering -/

/-- Mapping `completion_to_suggest` over the filtered completions never
raises and collects exactly the convertible entries, one per entry with a
`typeInfo`. -/
theorem mapSuggest_filter (cs : List Completion) :
    mapSuggest (cs.filter (fun c => c.typeInfo.isSome))
      = some (cs.filterMap completion_to_suggest) ∧
    (cs.filterMap completion_to_suggest).length
      = (cs.filter (fun c => c.typeInfo.isSome)).length := by
  induction cs with
  | nil => exact ⟨rfl, rfl⟩
  | cons c rest ih =>
    obtain ⟨ih1, ih2⟩ := ih
    cases hc : c.typeInfo with
    | none =>
      have h1 : completion_to_suggest c = none := by
        simp [completion_to_suggest, hc]
      simp [List.filter_cons, List.filterMap_cons, hc, h1, ih1, ih2]
    | some ti =>
      have h1 : completion_to_suggest c =
          some (suggestRow c.name (formatted_completion_sig c.name ti false)
                  (formatted_type ti),
                formatted_completion_sig c.name ti true) := by
        simp [completion_to_suggest, hc]
      simp [List.filter_cons, List.filterMap_cons, hc, h1, mapSuggest, ih1, ih2]

/-- C7: `handle_completion_info_list` excludes exactly the entries lacking
a `typeInfo` field (one suggestion per remaining entry, never an error);
an entry whose `typeInfo` is present with zero parameter sections is
included, and for it the inserted snippet equals the bare insert word. -/
theorem completion_filter_exact (cs : List Completion) :
    handle_completion_info_list cs = some (cs.filterMap completion_to_suggest) ∧
    (cs.filterMap completion_to_suggest).length
      = (cs.filter (fun c => c.typeInfo.isSome)).length ∧
    (∀ c, c ∈ cs → c.typeInfo = none → completion_to_suggest c = none) ∧
    (∀ c ti, c ∈ cs → c.typeInfo = some ti → ti.paramSections = [] →
      completion_to_suggest c =
          some (suggestRow c.name c.name (formatted_type ti), c.name) ∧
        (suggestRow c.name c.name (formatted_type ti), c.name)
          ∈ cs.filterMap completion_to_suggest) := by
  obtain ⟨h1, h2⟩ := mapSuggest_filter cs
  refine ⟨h1, h2, ?_, ?_⟩
  · intro c _ hc
    simp [completion_to_suggest, hc]
  · intro c ti hmem hc hps
    have hsig_false : formatted_completion_sig c.name ti false = c.name := by
      simp [formatted_completion_sig, hps]
    have hsig_true : formatted_completion_sig c.name ti true = c.name := by
      simp [formatted_completion_sig, hps]
    have heq : completion_to_suggest c =
        some (suggestRow c.name c.name (formatted_type ti), c.name) := by
      simp [completion_to_suggest, hc, hsig_false, hsig_true]
    exact ⟨heq, List.mem_filterMap.mpr ⟨c, hmem, heq⟩⟩

/-- C7 (witness): a list with one entry lacking `typeInfo` and one basic
field entry: the former converts to nothing, the latter's suggestion pair
(with snippet = bare name) is in the produced set. -/
theorem completion_filter_exact_witness :
    completion_to_suggest ⟨"bad", none⟩ = none ∧
    completion_to_suggest
        ⟨"field1", some ⟨"BasicTypeInfo", "Int", "scala.Int", ⟨"Int"⟩, []⟩⟩
      = some (suggestRow "field1" "field1"
          (formatted_type ⟨"BasicTypeInfo", "Int", "scala.Int", ⟨"Int"⟩, []⟩),
          "field1") ∧
    (suggestRow "field1" "field1"
        (formatted_type ⟨"BasicTypeInfo", "Int", "scala.Int", ⟨"Int"⟩, []⟩),
      "field1")
      ∈ ([⟨"bad", none⟩,
          ⟨"field1", some ⟨"BasicTypeInfo", "Int", "scala.Int", ⟨"Int"⟩, []⟩⟩] :
            List Completion).filterMap completion_to_suggest := by
  have h := completion_filter_exact
    [⟨"bad", none⟩,
     ⟨"field1", some ⟨"BasicTypeInfo", "Int", "scala.Int", ⟨"Int"⟩, []⟩⟩]
  have h4 := h.2.2.2
    ⟨"field1", some ⟨"BasicTypeInfo", "Int", "scala.Int", ⟨"Int"⟩, []⟩⟩
    ⟨"BasicTypeInfo", "Int", "scala.Int", ⟨"Int"⟩, []⟩
    (by simp) rfl rfl
  exact ⟨h.2.2.1 ⟨"bad", none⟩ (by simp) rfl, h4.1, h4.2⟩

/-! ## C3: call-options lookups -/

/-- C3 (counterexample): the quick-panel callback of the import-suggestions
handler indexes `call_options` directly; with the entry absent and a real
selection it raises `KeyError` instead of treating absence as "no
options". -/
theorem do_refactor_missing_entry_raises :
    do_refactor [] 3 ["java.util.List."] 0 = Except.error PyError.keyError := rfl

/-- C3 (amended): `handle_string_response` looks its entry up with `.get`
and treats absence as "no options" (no browse, state unchanged, no error);
the import-suggestions selection callback instead assumes the entry exists:
on a real selection with the entry absent it raises `KeyError`, while a
cancelled selection is a no-op that never touches the mapping. -/
theorem call_options_absence_amended :
    (∀ (m : List (Nat × CallOptions)) (cid : Nat) (text : String) (port : Nat)
        (fmt : Nat → String → String),
      dictGet m cid = none →
      handle_string_response m cid text port fmt = (none, m)) ∧
    (∀ (m : List (Nat × CallOptions)) (cid : Nat) (imports : List String)
        (choice : Int),
      dictGet m cid = none → choice > -1 →
      do_refactor m cid imports choice = Except.error PyError.keyError) ∧
    (∀ (m : List (Nat × CallOptions)) (cid : Nat) (imports : List String),
      do_refactor m cid imports (-1) = Except.ok none) := by
  refine ⟨?_, ?_, ?_⟩
  · intro m cid text port fmt h
    simp [handle_string_response, h]
  · intro m cid imports choice h hpos
    simp [do_refactor, hpos, h]
  · intro m cid imports
    rfl

/-- C3 (witness): the amended statement at concrete inputs with an empty
call-options mapping. -/
theorem call_options_absence_amended_witness :
    handle_string_response [] 7 "doc/index.html" 8080 (fun _ t => t)
      = (none, []) ∧
    do_refactor [] 7 ["java.util.List."] 0 = Except.error PyError.keyError ∧
    do_refactor [] 7 ["java.util.List."] (-1) = Except.ok none := by
  have h := call_options_absence_amended
  exact ⟨h.1 [] 7 "doc/index.html" 8080 (fun _ t => t) rfl,
    h.2.1 [] 7 ["java.util.List."] 0 rfl (by decide),
    h.2.2 [] 7 ["java.util.List."]⟩

/-! ## C4 and C5: dispatch -/

/-- C4: dispatching a message whose tag has no registered handler never
raises — the outcome is exactly the diagnostic log entry — and a dispatch
of any registered tag against the same table still invokes its handler
normally. -/
theorem dispatch_unknown_tag
    (handlers : List (String × (Nat → Payload → HandlerOutcome)))
    (server_version : String) (call_id : Nat) (p : Payload)
    (h : dictGet handlers p.typehint = none) :
    handle_incoming_response handlers server_version call_id p
      = DispatchResult.unhandledLogged ∧
    (∀ e, handle_incoming_response handlers server_version call_id p
      ≠ DispatchResult.raised e) ∧
    (∀ (call_id2 : Nat) (p2 : Payload) (h2 : Nat → Payload → HandlerOutcome),
      dictGet handlers p2.typehint = some h2 →
      handle_incoming_response handlers server_version call_id2 p2
        = catchNotImplemented (h2 call_id2 p2)
            (handler_not_implemented_msg p2.typehint server_version)) := by
  refine ⟨?_, ?_, ?_⟩
  · simp [handle_incoming_response, h]
  · intro e
    simp [handle_incoming_response, h]
  · intro call_id2 p2 h2 hfound
    simp [handle_incoming_response, hfound]

/-- C4 (witness): a table with one registered tag; the bogus tag is only
logged and the registered tag still runs. -/
theorem dispatch_unknown_tag_witness :
    handle_incoming_response
        [("ConnectionInfo", fun _ _ => HandlerOutcome.ok)] "unknown" 1
        ⟨"BogusEvent", 0⟩
      = DispatchResult.unhandledLogged ∧
    handle_incoming_response
        [("ConnectionInfo", fun _ _ => HandlerOutcome.ok)] "unknown" 2
        ⟨"ConnectionInfo", 0⟩
      = catchNotImplemented
          ((fun _ _ => HandlerOutcome.ok) 2 (⟨"ConnectionInfo", 0⟩ : Payload))
          (handler_not_implemented_msg "ConnectionInfo" "unknown") := by
  have h := dispatch_unknown_tag
    [("ConnectionInfo", fun _ _ => HandlerOutcome.ok)] "unknown" 1
    ⟨"BogusEvent", 0⟩ rfl
  exact ⟨h.1,
    h.2.2 2 ⟨"ConnectionInfo", 0⟩ (fun _ _ => HandlerOutcome.ok) rfl⟩

/-- C5: when a registered handler signals "not implemented", dispatch does
not propagate the failure: it reports the formatted message naming the tag
and the current server version and returns normally; every other exception
from inside the handler propagates, and a normally returning handler
yields a normal dispatch. -/
theorem dispatch_not_implemented_contained
    (handlers : List (String × (Nat → Payload → HandlerOutcome)))
    (server_version : String) (call_id : Nat) (p : Payload)
    (h : Nat → Payload → HandlerOutcome)
    (hfound : dictGet handlers p.typehint = some h) :
    (h call_id p = HandlerOutcome.notImplemented →
      handle_incoming_response handlers server_version call_id p
        = DispatchResult.featureNotSupported
            (handler_not_implemented_msg p.typehint server_version)) ∧
    (∀ e, h call_id p = HandlerOutcome.raised e →
      handle_incoming_response handlers server_version call_id p
        = DispatchResult.raised e) ∧
    (h call_id p = HandlerOutcome.ok →
      handle_incoming_response handlers server_version call_id p
        = DispatchResult.handled) := by
  refine ⟨?_, ?_, ?_⟩
  · intro hni
    simp [handle_incoming_response, hfound, catchNotImplemented, hni]
  · intro e he
    simp [handle_incoming_response, hfound, catchNotImplemented, he]
  · intro hok
    simp [handle_incoming_response, hfound, catchNotImplemented, hok]

/-- C5 (witness): `handle_debug_vm_error` raises `NotImplementedError`;
dispatched through a table registering it, the result is the formatted
feature-not-supported report, not a raised exception. -/
theorem dispatch_not_implemented_witness :
    handle_incoming_response [("DebugVmError", handle_debug_vm_error)]
        "1.0.0" 5 ⟨"DebugVmError", 0⟩
      = DispatchResult.featureNotSupported
          (handler_not_implemented_msg "DebugVmError" "1.0.0") :=
  (dispatch_not_implemented_contained
    [("DebugVmError", handle_debug_vm_error)] "1.0.0" 5 ⟨"DebugVmError", 0⟩
    handle_debug_vm_error rfl).1 rfl

/-! ## C1 and C9: refactor application -/

/-- C1: for every refactor payload whose tag is not one of the four
supported refactorings, `apply_refactor` is NOT a no-op: the unguarded
`if not patch_set:` reads a local that was only assigned under the
supported-tag guard, raising `UnboundLocalError` whatever the collaborator
inputs are. -/
theorem apply_refactor_unsupported_raises
    (fromfile : String → Option PatchSet) (rootf : String → String)
    (refactorings : List (Nat × String)) (payload : RefactorPayload)
    (h : payload.refactorTypeTypehint ∉ supported_refactorings) :
    apply_refactor fromfile rootf refactorings payload
      = Except.error PyError.unboundLocal := by
  simp [apply_refactor, h]

/-- C1 (witness): the unsupported tag `"ExtractLocal"` raises
`UnboundLocalError` at concrete collaborator inputs. -/
theorem apply_refactor_unsupported_raises_witness :
    apply_refactor (fun _ => none) (fun s => s) []
        ⟨"ExtractLocal", "diff text", 1⟩
      = Except.error PyError.unboundLocal :=
  apply_refactor_unsupported_raises (fun _ => none) (fun s => s) []
    ⟨"ExtractLocal", "diff text", 1⟩ (by decide)

/-- C9: with a supported tag whose diff parses to no usable patch set,
`apply_refactor` logs the failure and returns: no patch application is
attempted, nothing is reloaded, no file is mutated. -/
theorem apply_refactor_parse_failure_noop
    (fromfile : String → Option PatchSet) (rootf : String → String)
    (refactorings : List (Nat × String)) (payload : RefactorPayload)
    (hsupp : payload.refactorTypeTypehint ∈ supported_refactorings)
    (hparse : fromfile payload.diff = none) :
    apply_refactor fromfile rootf refactorings payload
      = Except.ok (RefactorResult.parseFailedLogged payload.diff) := by
  simp [apply_refactor, hsupp, hparse]

/-- C9 (witness): an `AddImport` payload with an unparseable diff at
concrete collaborator inputs. -/
theorem apply_refactor_parse_failure_noop_witness :
    apply_refactor (fun _ => none) (fun s => s) [(1, "/proj/src/A.scala")]
        ⟨"AddImport", "bogus diff", 1⟩
      = Except.ok (RefactorResult.parseFailedLogged "bogus diff") :=
  apply_refactor_parse_failure_noop (fun _ => none) (fun s => s)
    [(1, "/proj/src/A.scala")] ⟨"AddImport", "bogus diff", 1⟩
    (by decide) rfl

end EnsimeSublime
